import Mathlib

/-!
Verification of the voice-assignment and playback-serialization subsystem of
the `trace` repository (`scripts/voice.py`), by a shallow embedding of its
functions into Lean.

Modelling conventions:
* A Python dict whose keys are strings is an association list in insertion
  order (`List (String × String)`); inserting a fresh key appends at the end,
  exactly as CPython dicts preserve insertion order.
* `random.choice(available)` is modelled by an arbitrary index `k : Nat`
  reduced modulo the list length; theorems quantify over every `k`, so they
  hold for every outcome of the random draw.
* The persisted session file is modelled at two levels: a typed `Session`
  record for well-shaped states, and an untyped `JValue` JSON tree for the
  claims about parsing, file format and shape mismatches.
-/

namespace Voice

/-- The pool of voices available for random selection: the `VOICE_POOL`
constant of `voice.py`, a list of (voice id, description) pairs. -/
def VOICE_POOL : List (String × String) :=
  [ ("en-US-AriaNeural", "Female, US, conversational"),
    ("en-US-GuyNeural", "Male, US, friendly"),
    ("en-US-JennyNeural", "Female, US, warm"),
    ("en-US-ChristopherNeural", "Male, US, professional"),
    ("en-US-EricNeural", "Male, US, casual"),
    ("en-US-MichelleNeural", "Female, US, cheerful"),
    ("en-GB-SoniaNeural", "Female, British, sophisticated"),
    ("en-GB-RyanNeural", "Male, British, friendly"),
    ("en-AU-NatashaNeural", "Female, Australian"),
    ("en-AU-WilliamNeural", "Male, Australian"),
    ("en-IE-EmilyNeural", "Female, Irish"),
    ("en-IE-ConnorNeural", "Male, Irish"),
    ("en-IN-NeerjaNeural", "Female, Indian"),
    ("en-CA-ClaraNeural", "Female, Canadian") ]

/-- `DEFAULT_VOICE` of `voice.py`. -/
def DEFAULT_VOICE : String := "en-US-AriaNeural"

/-- The typed session state persisted in the session file:
`agents` is the agent → voice dict (association list in insertion order),
`used_voices` the list of voices already handed out this session. -/
structure Session where
  agents : List (String × String)
  used_voices : List String
  deriving Repr, DecidableEq

/-- The fresh empty session state that `load_session` returns when the file
is absent or malformed: `{"agents": {}, "used_voices": []}`. -/
def emptySession : Session := { agents := [], used_voices := [] }

/-- Python `agent_id in session["agents"]` / `session["agents"][agent_id]`
on the dict, as a lookup on the association list. -/
def lookupAgent (s : Session) (agent_id : String) : Option String :=
  (s.agents.find? (fun p => p.1 == agent_id)).map Prod.snd

/-- The voice ids of a pool: `[v[0] for v in VOICE_POOL]`. -/
def poolIds (pool : List (String × String)) : List String :=
  pool.map Prod.fst

/-- Lines 82-87 of `voice.py`: the voices of the pool not yet in
`used_voices`; if that is empty (every pool voice used), fall back to the
full pool, allowing reuse. -/
def availableOf (pool : List (String × String)) (used : List String) :
    List String :=
  let avail0 := (poolIds pool).filter (fun v => !(used.contains v))
  if avail0.isEmpty then poolIds pool else avail0

/-- `random.choice(available)`, the draw selected by index `k` modulo the
length; `none` exactly where Python raises `IndexError` (empty list). -/
def chooseFrom (k : Nat) : List String → Option String
  | [] => none
  | v :: vs => some ((v :: vs).getD (k % (v :: vs).length) v)

/-- `get_voice_for_agent` of `voice.py` (lines 74-96), over an explicit
pool and session state; `k` selects the outcome of `random.choice`.
On the already-assigned path the state is returned untouched (the code
returns before saving); on the new-agent path the chosen voice is recorded
under the agent and appended to `used_voices`, and that state is saved. -/
def get_voice_for_agent (pool : List (String × String)) (k : Nat)
    (s : Session) (agent_id : String) : Option (String × Session) :=
  match lookupAgent s agent_id with
  | some v => some (v, s)
  | none =>
    match chooseFrom k (availableOf pool s.used_voices) with
    | none => none
    | some voice =>
      some (voice,
        { agents := s.agents ++ [(agent_id, voice)],
          used_voices := s.used_voices ++ [voice] })

/-! ## JSON-level model of the persisted session file

`load_session` returns whatever `json.loads` produced, so claims about the
file format and about malformed contents need an untyped JSON tree. -/

/-- A parsed JSON value, as produced by Python `json.loads`.  Objects keep
their key order; keys are unique after parsing (later duplicates win in
Python, so a parsed object never holds two equal keys). -/
inductive JValue where
  | null : JValue
  | bool (b : Bool) : JValue
  | num (n : Int) : JValue
  | str (s : String) : JValue
  | arr (xs : List JValue) : JValue
  | obj (kvs : List (String × JValue)) : JValue
  deriving Repr

/-- What the session file holds when an invocation starts: the file may be
absent, present but unreadable (`IOError`), present but not valid JSON
(`json.JSONDecodeError`), or present and parsed to a `JValue`. -/
inductive FileContent where
  | absent : FileContent
  | unreadable : FileContent
  | malformed : FileContent
  | parsed (j : JValue) : FileContent
  deriving Repr

/-- The fresh state `load_session` builds when it cannot read the file:
the literal `{"agents": {}, "used_voices": []}` of `voice.py` line 66. -/
def fresh_session : JValue :=
  .obj [("agents", .obj []), ("used_voices", .arr [])]

/-- `load_session` of `voice.py`: if the file exists and its text parses,
return the parsed value unchanged (whatever its shape); on a missing file,
an `IOError` or a parse failure, return the fresh empty state. -/
def load_session : FileContent → JValue
  | .parsed j => j
  | _ => fresh_session

/-- The JSON value `json.dumps(session)` serializes for a typed session:
an object with the `agents` dict and the `used_voices` list. -/
def sessionToJson (s : Session) : JValue :=
  .obj [("agents", .obj (s.agents.map (fun p => (p.1, JValue.str p.2)))),
        ("used_voices", .arr (s.used_voices.map JValue.str))]

/-- `save_session` of `voice.py`: overwrite the session file with the JSON
serialization of the state.  The file afterwards parses back to exactly
that JSON value. -/
def save_session (s : Session) : FileContent :=
  .parsed (sessionToJson s)

/-- `reset_session` of `voice.py`: delete the session file if it exists. -/
def reset_session : FileContent → FileContent :=
  fun _ => .absent

/-- The top-level keys of a JSON object (empty for non-objects). -/
def topKeys : JValue → List String
  | .obj kvs => kvs.map Prod.fst
  | _ => []

/-! ## Python dynamic operations on JSON values

`get_voice_for_agent` manipulates the loaded value with dict/list
operations that raise on a shape mismatch; these model them, returning
`Except` where Python raises. -/

/-- Python subscript `j[key]` for a string key: dict lookup (KeyError when
absent), TypeError on any non-dict. -/
def getItem (j : JValue) (key : String) : Except String JValue :=
  match j with
  | .obj kvs =>
    match kvs.find? (fun p => p.1 == key) with
    | some p => .ok p.2
    | none => .error ("KeyError: " ++ key)
  | _ => .error "TypeError: value is not subscriptable by string"

/-- Python membership `x in j` for a string probe: key membership on a
dict, element membership on a list, substring test on a string, TypeError
otherwise. -/
def pyContains (j : JValue) (x : String) : Except String Bool :=
  match j with
  | .obj kvs => .ok (kvs.any (fun p => p.1 == x))
  | .arr xs => .ok (xs.any (fun v => match v with | .str s => s == x | _ => false))
  | .str s => .ok (decide (List.IsInfix x.toList s.toList))
  | _ => .error "TypeError: argument is not iterable"

/-- Python `j[key] = v` on a dict: replace the value at an existing key in
place, or append a fresh key at the end (CPython insertion order);
TypeError on any non-dict. -/
def setKey (j : JValue) (key : String) (v : JValue) : Except String JValue :=
  match j with
  | .obj kvs =>
    if kvs.any (fun p => p.1 == key) then
      .ok (.obj (kvs.map (fun p => if p.1 == key then (key, v) else p)))
    else
      .ok (.obj (kvs ++ [(key, v)]))
  | _ => .error "TypeError: assignment target is not a dict"

/-- Python `j.append(v)`: defined on lists only. -/
def appendItem (j : JValue) (v : JValue) : Except String JValue :=
  match j with
  | .arr xs => .ok (.arr (xs ++ [v]))
  | _ => .error "AttributeError: append"

/-- The list comprehension of `voice.py` line 83:
`[v[0] for v in VOICE_POOL if v[0] not in session["used_voices"]]`.
Each iteration subscripts the session and tests membership, so the first
shape mismatch raises there; no iteration happens for an empty pool. -/
def availFilter (session : JValue) : List String → Except String (List String)
  | [] => .ok []
  | v :: vs => do
    let used ← getItem session "used_voices"
    let b ← pyContains used v
    let rest ← availFilter session vs
    pure (if b then rest else v :: rest)

/-- `get_voice_for_agent` of `voice.py` run against the raw loaded JSON
value, tracking every place Python would raise.  Returns the spoken voice
value and the file content after the call (`save_session` happens only on
the new-agent path). -/
def get_voice_for_agent_json (k : Nat) (file : FileContent)
    (agent_id : String) : Except String (JValue × FileContent) := do
  let session := load_session file
  let agents ← getItem session "agents"
  let isMem ← pyContains agents agent_id
  if isMem then
    let v ← getItem agents agent_id
    pure (v, file)
  else
    let avail0 ← availFilter session (VOICE_POOL.map Prod.fst)
    let available := if avail0.isEmpty then VOICE_POOL.map Prod.fst else avail0
    match available with
    | [] => .error "IndexError: random.choice on empty sequence"
    | v :: vs =>
      let voice := (v :: vs).getD (k % (v :: vs).length) v
      let agents2 ← setKey agents agent_id (.str voice)
      let used ← getItem session "used_voices"
      let used2 ← appendItem used (.str voice)
      let session2 ← setKey session "agents" agents2
      let session3 ← setKey session2 "used_voices" used2
      pure (.str voice, .parsed session3)

/-! ## Fixed-assignment (prefix-match) resolver -/

/-- Lowercasing a string character by character. -/
def strLower (s : String) : String := String.mk (s.data.map Char.toLower)

/-- Whether `s` starts with `p`, at the character-list level. -/
def strStartsWith (s p : String) : Bool := p.data.isPrefixOf s.data

/-- Modelled from the spec: the fixed-assignment (prefix-match) variant of
the voice resolver is described in spec section 4.1 but is not present
under `src/` (only the random-assignment variant is).  Per the spec:
normalize the agent id to lowercase; scan the ordered `modelVoices` table;
an entry `(p, v)` matches when the agent id equals `p` or starts with
`p` followed by a dash; the first match wins; with no match return the
default voice. -/
def resolve_fixed (modelVoices : List (String × String))
    (defaultVoice : String) (agentId : String) : String :=
  let a := strLower agentId
  match modelVoices.find? (fun p => a == p.1 || strStartsWith a (p.1 ++ "-")) with
  | some p => p.2
  | none => defaultVoice

/-- The fixed-prefix table of spec scenario A / section 8: sonnet, haiku
and opus voices with a default. -/
def modelVoicesA : List (String × String) :=
  [("sonnet", "V1"), ("haiku", "V2"), ("opus", "V3")]

/-! ## Speech pipeline (`speak`)

`speak` creates a temporary audio file (`NamedTemporaryFile(delete=False)`),
synthesizes into it, plays it under the lock, and in a `finally` block
unlinks the file if it still exists.  The two external collaborators are
modelled by flags saying whether they succeed: synthesis may fail
(backend error), and playback may fail (`ffplay` missing on PATH or a
non-zero exit, both of which `subprocess.run(check=True)` surfaces as an
exception). -/

/-- How a `speak` invocation ends: normal return, an exception from the
synthesis step, or an exception from the playback step. -/
inductive SpeakOutcome where
  | ok : SpeakOutcome
  | synthError : SpeakOutcome
  | playbackError : SpeakOutcome
  deriving Repr, DecidableEq

/-- The `try` body of `speak` (lines 149-160): synthesize, then play under
the playback lock; the first failing step raises. -/
def speakBody (synthOk playbackOk : Bool) : SpeakOutcome :=
  if !synthOk then .synthError
  else if !playbackOk then .playbackError
  else .ok

/-- The `finally` block of `speak` (lines 161-164): if the temp file still
exists, unlink it; returns whether the file exists afterwards. -/
def speakCleanup (tempExists : Bool) : Bool :=
  if tempExists then false else tempExists

/-- `speak` of `voice.py` as a whole: the temp file is created (so it
exists when the body runs), the body runs to its outcome, and the
`finally` cleanup always runs before the call returns.  The result is the
outcome paired with whether the temp file exists after the call. -/
def speak (synthOk playbackOk : Bool) : SpeakOutcome × Bool :=
  let tempExists := true
  let outcome := speakBody synthOk playbackOk
  (outcome, speakCleanup tempExists)

/-! ## Spec scenario B: a pool of three voices -/

/-- The three-voice pool of spec scenario B. -/
def pool3 : List (String × String) :=
  [("voice-one", "first"), ("voice-two", "second"), ("voice-three", "third")]

/-- Scenario B, first three resolutions: starting from the empty session,
three distinct new agents resolve in sequence (each `k` is that step's
random draw). -/
def runB3 (k1 k2 k3 : Nat) : Option Session :=
  (get_voice_for_agent pool3 k1 emptySession "agent-a").bind fun r1 =>
  (get_voice_for_agent pool3 k2 r1.2 "agent-b").bind fun r2 =>
  (get_voice_for_agent pool3 k3 r2.2 "agent-c").map fun r3 => r3.2

/-- Scenario B including the fourth distinct agent. -/
def runB (k1 k2 k3 k4 : Nat) : Option (String × Session) :=
  (runB3 k1 k2 k3).bind fun s3 => get_voice_for_agent pool3 k4 s3 "agent-d"

/-! ## The session-state invariant of spec section 3 -/

/-- Every voice id recorded in `agents` or in `used_voices` is a voice of
the pool. -/
def SessionInv (pool : List (String × String)) (s : Session) : Prop :=
  (∀ p ∈ s.agents, p.2 ∈ poolIds pool) ∧
  (∀ v ∈ s.used_voices, v ∈ poolIds pool)

/-- The string values of a JSON object's fields. -/
def strValues (kvs : List (String × JValue)) : List String :=
  kvs.filterMap (fun q => match q.2 with | .str v => some v | _ => none)

/-- The string elements of a JSON array. -/
def strElems (xs : List JValue) : List String :=
  xs.filterMap (fun x => match x with | .str v => some v | _ => none)

/-- All voice ids recorded in a persisted session JSON value: the string
values under its `agents` object and the string elements of its
`used_voices` array. -/
def jsonVoices : JValue → List String
  | .obj kvs => kvs.foldr (fun p acc =>
      match p with
      | ("agents", .obj avs) => strValues avs ++ acc
      | ("used_voices", .arr xs) => strElems xs ++ acc
      | _ => acc) []
  | _ => []

/-- The invariant read off the persisted file: every voice id it records
is a pool voice. -/
def FileInv (pool : List (String × String)) (fc : FileContent) : Prop :=
  ∀ v ∈ jsonVoices (load_session fc), v ∈ poolIds pool

/-! ## Concurrent model of N `speak` invocations

Each of N processes executes `speak` (lines 141-164): synthesize (in
parallel, no shared state), then block acquiring the `FileLock` on
`SPEECH_LOCK_FILE` with no timeout, then run `ffplay` while holding the
lock, then release.  The `FileLock` collaborator's contract is an
exclusive lock: acquisition succeeds only when no process holds it.  The
interleaving of the N processes is a step relation on a system state. -/

namespace SpeakSys

/-- Where one `speak` invocation stands in its control flow. -/
inductive Phase where
  | synthesizing : Phase
  | waitingLock : Phase
  | playing : Phase
  | finished : Phase
  deriving Repr, DecidableEq

/-- State of the whole host: who holds the playback lock (the `FileLock`
is exclusive, hence at most one holder), each process's phase, and how
many playback invocations each process has performed. -/
structure SysState (n : Nat) where
  lock : Option (Fin n)
  phase : Fin n → Phase
  plays : Fin n → Nat

/-- All N invocations start before synthesis, the lock free, no playback
performed. -/
def init (n : Nat) : SysState n :=
  { lock := none, phase := fun _ => .synthesizing, plays := fun _ => 0 }

/-- One interleaving step: a process finishes its synthesis and reaches
the lock acquisition (line 155); a process acquires the free lock and
starts its one `ffplay` invocation (lines 156-160); the lock holder's
playback ends and it releases the lock. -/
inductive Step (n : Nat) : SysState n → SysState n → Prop where
  | synth (i : Fin n) (s : SysState n) :
      s.phase i = .synthesizing →
      Step n s { lock := s.lock,
                 phase := Function.update s.phase i .waitingLock,
                 plays := s.plays }
  | acquire (i : Fin n) (s : SysState n) :
      s.phase i = .waitingLock → s.lock = none →
      Step n s { lock := some i,
                 phase := Function.update s.phase i .playing,
                 plays := Function.update s.plays i (s.plays i + 1) }
  | finish (i : Fin n) (s : SysState n) :
      s.phase i = .playing → s.lock = some i →
      Step n s { lock := none,
                 phase := Function.update s.phase i .finished,
                 plays := s.plays }

/-- States the system can reach from the initial state. -/
def Reachable (n : Nat) (s : SysState n) : Prop :=
  Relation.ReflTransGen (Step n) (init n) s

/-- The inductive invariant: a process is in its playback exactly when it
holds the lock, and its playback count is 0 before it acquires and 1
afterwards. -/
def Inv {n : Nat} (s : SysState n) : Prop :=
  (∀ i, s.phase i = .playing ↔ s.lock = some i) ∧
  (∀ i, s.plays i =
    if s.phase i = .synthesizing ∨ s.phase i = .waitingLock then 0 else 1)

/-- Steps left before the whole system is done (3 per process not yet
synthesized, down to 0 when finished). -/
def phaseWeight : Phase → Nat
  | .synthesizing => 3
  | .waitingLock => 2
  | .playing => 1
  | .finished => 0

/-- Total remaining work, the termination measure. -/
def workLeft {n : Nat} (s : SysState n) : Nat :=
  ∑ i : Fin n, phaseWeight (s.phase i)

end SpeakSys

/-! ## Helper lemmas about the random-assignment resolver -/

lemma chooseFrom_mem {k : Nat} {l : List String} {v : String}
    (h : chooseFrom k l = some v) : v ∈ l := by
  cases l with
  | nil => exact absurd h (by simp [chooseFrom])
  | cons x xs =>
    have hv : (x :: xs).getD (k % (x :: xs).length) x = v := by
      simpa [chooseFrom] using h
    have hlt : k % (x :: xs).length < (x :: xs).length :=
      Nat.mod_lt _ (by simp)
    rw [List.getD_eq_getElem _ _ hlt] at hv
    exact hv ▸ List.getElem_mem hlt

lemma chooseFrom_isSome (k : Nat) {l : List String} (h : l ≠ []) :
    ∃ v, chooseFrom k l = some v := by
  cases l with
  | nil => exact absurd rfl h
  | cons x xs => exact ⟨_, rfl⟩

lemma availableOf_eq (pool : List (String × String)) (used : List String) :
    availableOf pool used =
      if ((poolIds pool).filter (fun v => !(used.contains v))).isEmpty
      then poolIds pool
      else (poolIds pool).filter (fun v => !(used.contains v)) := rfl

lemma availableOf_ne_nil (pool : List (String × String)) (used : List String)
    (h : poolIds pool ≠ []) : availableOf pool used ≠ [] := by
  rw [availableOf_eq]
  cases hl : (poolIds pool).filter (fun v => !(used.contains v)) with
  | nil => simpa using h
  | cons x xs => simp

lemma availableOf_subset {pool : List (String × String)} {used : List String}
    {v : String} (hv : v ∈ availableOf pool used) : v ∈ poolIds pool := by
  rw [availableOf_eq] at hv
  by_cases he : ((poolIds pool).filter (fun v => !(used.contains v))).isEmpty = true
  · rwa [if_pos he] at hv
  · rw [if_neg he] at hv
    exact List.mem_of_mem_filter hv

lemma availableOf_not_used {pool : List (String × String)} {used : List String}
    {v : String}
    (hne : (poolIds pool).filter (fun v => !(used.contains v)) ≠ [])
    (hv : v ∈ availableOf pool used) : v ∉ used := by
  rw [availableOf_eq] at hv
  have he : ¬ ((poolIds pool).filter (fun v => !(used.contains v))).isEmpty = true := by
    cases hl : (poolIds pool).filter (fun v => !(used.contains v)) with
    | nil => exact absurd hl hne
    | cons x xs => simp
  rw [if_neg he] at hv
  have := List.of_mem_filter hv
  simpa using this

/-- The new-agent path of `get_voice_for_agent`: some pool voice is chosen,
recorded under the agent and appended to `used_voices`. -/
lemma fresh_assign (pool : List (String × String)) (k : Nat) {s : Session}
    {a : String} (hna : lookupAgent s a = none) (hpool : poolIds pool ≠ []) :
    ∃ v, get_voice_for_agent pool k s a =
        some (v, { agents := s.agents ++ [(a, v)],
                   used_voices := s.used_voices ++ [v] }) ∧
      v ∈ poolIds pool := by
  obtain ⟨v, hv⟩ :=
    chooseFrom_isSome k (availableOf_ne_nil pool s.used_voices hpool)
  refine ⟨v, ?_, availableOf_subset (chooseFrom_mem hv)⟩
  unfold get_voice_for_agent
  rw [hna, hv]

lemma ids_subset_used {ids used : List String} (hndI : ids.Nodup)
    (hndU : used.Nodup) (hsub : ∀ v ∈ used, v ∈ ids)
    (hlen : ids.length ≤ used.length) : ∀ v ∈ ids, v ∈ used := by
  have h1 : used.toFinset ⊆ ids.toFinset := by
    intro v hv
    exact List.mem_toFinset.mpr (hsub v (List.mem_toFinset.mp hv))
  have h2 : ids.toFinset.card ≤ used.toFinset.card := by
    rw [List.toFinset_card_of_nodup hndI, List.toFinset_card_of_nodup hndU]
    exact hlen
  have heq := Finset.eq_of_subset_of_card_le h1 h2
  intro v hv
  have : v ∈ used.toFinset := heq ▸ List.mem_toFinset.mpr hv
  exact List.mem_toFinset.mp this

/-- A new-agent resolution while unused pool voices remain: the chosen
voice is fresh, so `used_voices` stays duplicate-free and grows by one. -/
lemma step_nodup (pool : List (String × String)) (k : Nat) {s : Session}
    {a : String} (hna : lookupAgent s a = none)
    (hndU : s.used_voices.Nodup)
    (hlen : ¬ (poolIds pool).filter (fun v => !(s.used_voices.contains v)) = []) :
    ∃ v, get_voice_for_agent pool k s a =
        some (v, { agents := s.agents ++ [(a, v)],
                   used_voices := s.used_voices ++ [v] }) ∧
      v ∈ poolIds pool ∧ v ∉ s.used_voices ∧
      (s.used_voices ++ [v]).Nodup ∧
      (s.used_voices ++ [v]).length = s.used_voices.length + 1 := by
  have hpool : poolIds pool ≠ [] := by
    intro hnil
    exact hlen (by simp [hnil])
  obtain ⟨v, hv, hvp⟩ := fresh_assign pool k hna hpool
  have hvmem : v ∈ availableOf pool s.used_voices := by
    have : ∃ w, chooseFrom k (availableOf pool s.used_voices) = some w ∧ w = v := by
      unfold get_voice_for_agent at hv
      rw [hna] at hv
      cases hc : chooseFrom k (availableOf pool s.used_voices) with
      | none => rw [hc] at hv; exact absurd hv (by simp)
      | some w =>
        rw [hc] at hv
        simp only [Option.some.injEq, Prod.mk.injEq] at hv
        exact ⟨w, rfl, hv.1⟩
    obtain ⟨w, hw, hwv⟩ := this
    subst hwv
    exact chooseFrom_mem hw
  have hnu : v ∉ s.used_voices := availableOf_not_used hlen hvmem
  refine ⟨v, hv, hvp, hnu, ?_, by simp⟩
  rw [List.nodup_append]
  refine ⟨hndU, List.nodup_singleton v, ?_⟩
  intro x hx hb
  rw [List.mem_singleton] at hb
  subst hb
  exact hnu hx

/-- A new-agent resolution once every pool voice is used: the filter is
empty, the full pool is offered again, and the chosen voice is a reuse. -/
lemma step_exhausted (pool : List (String × String)) (k : Nat) {s : Session}
    {a : String} (hna : lookupAgent s a = none)
    (hndI : (poolIds pool).Nodup) (hndU : s.used_voices.Nodup)
    (hsub : ∀ v ∈ s.used_voices, v ∈ poolIds pool)
    (hlen : (poolIds pool).length ≤ s.used_voices.length)
    (hpool : poolIds pool ≠ []) :
    ∃ v, get_voice_for_agent pool k s a =
        some (v, { agents := s.agents ++ [(a, v)],
                   used_voices := s.used_voices ++ [v] }) ∧
      v ∈ poolIds pool ∧ v ∈ s.used_voices := by
  obtain ⟨v, hv, hvp⟩ := fresh_assign pool k hna hpool
  exact ⟨v, hv, hvp, ids_subset_used hndI hndU hsub hlen v hvp⟩

lemma find?_append_self {l : List (String × String)} {a v : String}
    (h : l.find? (fun p => p.1 == a) = none) :
    (l ++ [(a, v)]).find? (fun p => p.1 == a) = some (a, v) := by
  induction l with
  | nil => simp [List.find?]
  | cons x xs ih =>
    by_cases hpx : (x.1 == a) = true
    · exfalso
      simp only [List.find?_cons, hpx, cond_true] at h
      exact Option.noConfusion h
    · have hpx2 : (x.1 == a) = false := by simpa using hpx
      simp only [List.find?_cons, hpx2, cond_false] at h
      rw [List.cons_append]
      simp only [List.find?_cons, hpx2, cond_false]
      exact ih h

lemma lookupAgent_none_find? {s : Session} {a : String}
    (h : lookupAgent s a = none) :
    s.agents.find? (fun p => p.1 == a) = none := by
  unfold lookupAgent at h
  cases hf : s.agents.find? (fun p => p.1 == a) with
  | none => rfl
  | some p => rw [hf] at h; exact absurd h (by simp)

/-- The voice recorded for a fresh agent is found by a later lookup. -/
lemma lookupAgent_record {s : Session} (a v : String) (u : List String)
    (h : lookupAgent s a = none) :
    lookupAgent { agents := s.agents ++ [(a, v)], used_voices := u } a =
      some v := by
  unfold lookupAgent
  rw [find?_append_self (lookupAgent_none_find? h)]
  rfl

lemma filter_ne_nil_of_len {ids used : List String} (hnd : ids.Nodup)
    (hlen : used.length < ids.length) :
    ids.filter (fun v => !(used.contains v)) ≠ [] := by
  intro hnil
  have hall : ∀ v ∈ ids, v ∈ used := by
    intro v hv
    have := List.filter_eq_nil_iff.mp hnil v hv
    simpa using this
  have h1 : ids.toFinset ⊆ used.toFinset := by
    intro v hv
    exact List.mem_toFinset.mpr (hall v (List.mem_toFinset.mp hv))
  have h2 := Finset.card_le_card h1
  rw [List.toFinset_card_of_nodup hnd] at h2
  have h3 := List.toFinset_card_le used
  omega

lemma strValues_map (l : List (String × String)) :
    strValues (l.map (fun p => (p.1, JValue.str p.2))) = l.map Prod.snd := by
  induction l with
  | nil => rfl
  | cons x xs ih =>
    simp only [List.map_cons, strValues, List.filterMap_cons] at ih ⊢
    rw [ih]

lemma strElems_map (l : List String) :
    strElems (l.map JValue.str) = l := by
  induction l with
  | nil => rfl
  | cons x xs ih =>
    simp only [List.map_cons, strElems, List.filterMap_cons] at ih ⊢
    rw [ih]

lemma jsonVoices_sessionToJson (s : Session) :
    jsonVoices (sessionToJson s) = s.agents.map Prod.snd ++ s.used_voices := by
  show strValues (s.agents.map (fun p => (p.1, JValue.str p.2))) ++
      (strElems (s.used_voices.map JValue.str) ++ []) = _
  rw [strValues_map, strElems_map, List.append_nil]

/-! ## Lemmas about the concurrent model -/

namespace SpeakSys

lemma inv_init (n : Nat) : Inv (init n) := by
  constructor
  · intro i
    simp [init]
  · intro i
    simp [init]

lemma inv_step {n : Nat} {s t : SysState n} (hinv : Inv s) (hst : Step n s t) :
    Inv t := by
  obtain ⟨hlock, hplays⟩ := hinv
  cases hst with
  | synth i s hi =>
    refine ⟨fun j => ?_, fun j => ?_⟩
    · by_cases hj : j = i
      · subst hj
        simp only [Function.update_same]
        constructor
        · intro h
          exact absurd h (by simp)
        · intro h
          exact absurd ((hlock j).mpr h) (by simp [hi])
      · simpa [Function.update_noteq hj] using hlock j
    · by_cases hj : j = i
      · subst hj
        simp only [Function.update_same]
        simpa [hi] using hplays j
      · simpa [Function.update_noteq hj] using hplays j
  | acquire i s hi hfree =>
    refine ⟨fun j => ?_, fun j => ?_⟩
    · by_cases hj : j = i
      · subst hj
        simp [Function.update_same]
      · simp only [Function.update_noteq hj]
        constructor
        · intro h
          exact absurd (((hlock j).mp h).symm.trans hfree) (by simp)
        · intro h
          exact absurd (Option.some.inj h) (fun e => hj e.symm)
    · by_cases hj : j = i
      · subst hj
        simp only [Function.update_same]
        have := hplays j
        simp [hi] at this
        simp [this]
      · simp only [Function.update_noteq hj]
        exact hplays j
  | finish i s hi hheld =>
    refine ⟨fun j => ?_, fun j => ?_⟩
    · by_cases hj : j = i
      · subst hj
        simp [Function.update_same]
      · simp only [Function.update_noteq hj]
        constructor
        · intro h
          have hj2 : s.lock = some j := (hlock j).mp h
          exact absurd (Option.some.inj (hheld.symm.trans hj2)) (fun e => hj e.symm)
        · intro h
          exact absurd h (by simp)
    · by_cases hj : j = i
      · subst hj
        simp only [Function.update_same]
        have := hplays j
        simpa [hi] using this
      · simp only [Function.update_noteq hj]
        exact hplays j

lemma inv_reachable {n : Nat} {s : SysState n} (h : Reachable n s) : Inv s := by
  induction h with
  | refl => exact inv_init n
  | tail _ hstep ih => exact inv_step ih hstep

lemma sum_update_lt {n : Nat} (f : Fin n → Nat) (i : Fin n) (b : Nat)
    (h : b < f i) :
    (∑ j : Fin n, Function.update f i b j) < ∑ j : Fin n, f j := by
  rw [Finset.sum_update_of_mem (Finset.mem_univ i)]
  rw [← Finset.add_sum_erase Finset.univ f (Finset.mem_univ i), Finset.erase_eq]
  exact Nat.add_lt_add_right h _

lemma step_workLeft {n : Nat} {s t : SysState n} (hst : Step n s t) :
    workLeft t < workLeft s := by
  cases hst with
  | synth i s hi =>
    unfold workLeft
    have hup : ∀ j : Fin n,
        phaseWeight (Function.update s.phase i Phase.waitingLock j) =
        Function.update (fun j => phaseWeight (s.phase j)) i
          (phaseWeight Phase.waitingLock) j := by
      intro j
      by_cases hj : j = i
      · subst hj
        simp
      · simp [Function.update_noteq hj]
    simp only [hup]
    exact sum_update_lt _ i _ (by simp [hi, phaseWeight])
  | acquire i s hi hfree =>
    unfold workLeft
    have hup : ∀ j : Fin n,
        phaseWeight (Function.update s.phase i Phase.playing j) =
        Function.update (fun j => phaseWeight (s.phase j)) i
          (phaseWeight Phase.playing) j := by
      intro j
      by_cases hj : j = i
      · subst hj
        simp
      · simp [Function.update_noteq hj]
    simp only [hup]
    exact sum_update_lt _ i _ (by simp [hi, phaseWeight])
  | finish i s hi hheld =>
    unfold workLeft
    have hup : ∀ j : Fin n,
        phaseWeight (Function.update s.phase i Phase.finished j) =
        Function.update (fun j => phaseWeight (s.phase j)) i
          (phaseWeight Phase.finished) j := by
      intro j
      by_cases hj : j = i
      · subst hj
        simp
      · simp [Function.update_noteq hj]
    simp only [hup]
    exact sum_update_lt _ i _ (by simp [hi, phaseWeight])

lemma progress {n : Nat} {s : SysState n} (hinv : Inv s) (i : Fin n)
    (hi : s.phase i ≠ .finished) : ∃ t, Step n s t := by
  obtain ⟨hlock, _⟩ := hinv
  cases hp : s.phase i with
  | synthesizing => exact ⟨_, Step.synth i s hp⟩
  | waitingLock =>
    cases hl : s.lock with
    | none => exact ⟨_, Step.acquire i s hp hl⟩
    | some j =>
      have hj : s.phase j = .playing := (hlock j).mpr hl
      exact ⟨_, Step.finish j s hj hl⟩
  | playing => exact ⟨_, Step.finish i s hp ((hlock i).mp hp)⟩
  | finished => exact absurd hp hi

end SpeakSys

/-! ## The claims -/

/-- C2: resolving a voice for an agent id already mapped in the session's
`agents` returns exactly the mapped voice id and leaves the session state
unchanged, so resolving the same agent twice in one session yields the
same voice both times. -/
theorem C2_resolve_idempotent (k : Nat) (s : Session) (agent_id v : String)
    (h : lookupAgent s agent_id = some v) :
    get_voice_for_agent VOICE_POOL k s agent_id = some (v, s) := by
  unfold get_voice_for_agent
  rw [h]

/-- Witness for C2 at a concrete session already mapping `explore`. -/
theorem C2_witness :
    lookupAgent { agents := [("explore", "en-GB-SoniaNeural")],
                  used_voices := ["en-GB-SoniaNeural"] } "explore" =
      some "en-GB-SoniaNeural" ∧
    get_voice_for_agent VOICE_POOL 7
        { agents := [("explore", "en-GB-SoniaNeural")],
          used_voices := ["en-GB-SoniaNeural"] } "explore" =
      some ("en-GB-SoniaNeural",
        { agents := [("explore", "en-GB-SoniaNeural")],
          used_voices := ["en-GB-SoniaNeural"] }) :=
  ⟨by decide, C2_resolve_idempotent 7 _ "explore" _ (by decide)⟩

/-- C3: in random-assignment mode a new agent always receives a voice of
the pool — even if every pool voice already appears in `used_voices` —
and that voice is recorded under the agent and appended to `used_voices`. -/
theorem C3_new_agent_gets_pool_voice (k : Nat) (s : Session)
    (agent_id : String) (h : lookupAgent s agent_id = none) :
    ∃ v, get_voice_for_agent VOICE_POOL k s agent_id =
        some (v, { agents := s.agents ++ [(agent_id, v)],
                   used_voices := s.used_voices ++ [v] }) ∧
      v ∈ poolIds VOICE_POOL ∧
      lookupAgent { agents := s.agents ++ [(agent_id, v)],
                    used_voices := s.used_voices ++ [v] } agent_id = some v := by
  obtain ⟨v, hv, hvp⟩ := fresh_assign VOICE_POOL k h (by decide)
  exact ⟨v, hv, hvp, lookupAgent_record agent_id v _ h⟩

/-- Witness for C3 at a session whose `used_voices` already holds the
whole pool (the exhaustion case). -/
theorem C3_witness :
    ∃ v, get_voice_for_agent VOICE_POOL 5
        { agents := [], used_voices := poolIds VOICE_POOL } "fresh-agent" =
        some (v, { agents := [] ++ [("fresh-agent", v)],
                   used_voices := poolIds VOICE_POOL ++ [v] }) ∧
      v ∈ poolIds VOICE_POOL ∧
      lookupAgent { agents := [] ++ [("fresh-agent", v)],
                    used_voices := poolIds VOICE_POOL ++ [v] } "fresh-agent" =
        some v :=
  C3_new_agent_gets_pool_voice 5
    { agents := [], used_voices := poolIds VOICE_POOL } "fresh-agent"
    (by decide)

/-- C4: on every exit path of `speak` — synthesis and playback both
succeed, playback fails (missing executable or non-zero exit), or
synthesis fails — the temporary audio file no longer exists when the call
returns; and the call succeeds exactly when both steps do. -/
theorem C4_temp_file_deleted (synthOk playbackOk : Bool) :
    (speak synthOk playbackOk).2 = false ∧
    ((speak synthOk playbackOk).1 = .ok ↔ synthOk = true ∧ playbackOk = true) := by
  cases synthOk <;> cases playbackOk <;> exact ⟨rfl, by decide⟩

/-- C5: whether the session file is absent, unreadable, or fails to parse
as JSON, `load_session` returns the fresh empty state — an object with an
empty `agents` mapping and an empty used-voices list — instead of
propagating an error. -/
theorem C5_load_self_heals :
    load_session .absent = fresh_session ∧
    load_session .unreadable = fresh_session ∧
    load_session .malformed = fresh_session ∧
    fresh_session = .obj [("agents", .obj []), ("used_voices", .arr [])] :=
  ⟨rfl, rfl, rfl, rfl⟩

/-- C6: in the fixed-assignment (prefix-match) policy — modelled from the
spec, the variant being absent from `src/` — agent ids `opus-main` and
`opus` resolve to the opus voice, `opusextra` falls back to the default,
matching lowercases the agent id (`OPUS-Main` also matches), and the
first matching entry in table order wins. -/
theorem C6_prefix_match_fixed :
    resolve_fixed modelVoicesA "V0" "opus-main" = "V3" ∧
    resolve_fixed modelVoicesA "V0" "opus" = "V3" ∧
    resolve_fixed modelVoicesA "V0" "opusextra" = "V0" ∧
    resolve_fixed modelVoicesA "V0" "OPUS-Main" = "V3" ∧
    resolve_fixed [("opus", "VA"), ("opus", "VB")] "V0" "opus" = "VA" := by
  decide

/-- C9 counterexample: the file written by `save_session` (and read back
by `load_session`) has top-level fields `agents` and `used_voices`, not
`agents` and `usedVoices` as the claim states. -/
theorem C9_counterexample :
    topKeys (load_session (save_session emptySession)) =
      ["agents", "used_voices"] ∧
    topKeys (load_session (save_session emptySession)) ≠
      ["agents", "usedVoices"] := by
  decide

/-- C9 (amended): the persisted session file, as written by `save_session`
and as read back by `load_session`, is a JSON object with exactly the
fields `agents` (an object) and `used_voices` (an array of strings). -/
theorem C9_file_format_amended (s : Session) :
    ∃ akvs uelems,
      save_session s =
        .parsed (.obj [("agents", .obj akvs), ("used_voices", .arr uelems)]) ∧
      (∀ x ∈ uelems, ∃ v, x = JValue.str v) ∧
      load_session (save_session s) =
        .obj [("agents", .obj akvs), ("used_voices", .arr uelems)] := by
  refine ⟨_, _, rfl, ?_, rfl⟩
  intro x hx
  obtain ⟨v, hv, hxv⟩ := List.mem_map.mp hx
  exact ⟨v, hxv.symm⟩

/-- C10: a session file holding valid JSON of the wrong shape (the JSON
texts `{}` and `[]`) is returned by `load_session` unchanged — not
replaced by the fresh empty state — and any subsequent resolution raises
an uncaught exception (`KeyError` for the empty object, `TypeError` for
the array); the self-healing path covers only parse failures. -/
theorem C10_shape_mismatch_uncaught (k : Nat) (agent_id : String) :
    load_session (.parsed (.obj [])) = .obj [] ∧
    (JValue.obj [] ≠ fresh_session) ∧
    load_session (.parsed (.arr [])) = .arr [] ∧
    (JValue.arr [] ≠ fresh_session) ∧
    get_voice_for_agent_json k (.parsed (.obj [])) agent_id =
      .error "KeyError: agents" ∧
    get_voice_for_agent_json k (.parsed (.arr [])) agent_id =
      .error "TypeError: value is not subscriptable by string" := by
  refine ⟨rfl, ?_, rfl, ?_, rfl, rfl⟩
  · intro h
    simp [fresh_session] at h
  · intro h
    simp [fresh_session] at h

/-- C1: across N concurrent `speak` invocations, in every reachable state
of the interleaving at most one process is inside its playback (the
playback mutex has at most one holder); every step strictly decreases the
termination measure, so every maximal run is finite; and any reachable
state from which no step is enabled has all N invocations finished with
exactly one playback performed each — none lost, none duplicated. -/
theorem C1_playback_serialized (n : Nat) (s : SpeakSys.SysState n)
    (h : SpeakSys.Reachable n s) :
    (∀ i j, s.phase i = SpeakSys.Phase.playing →
        s.phase j = SpeakSys.Phase.playing → i = j) ∧
    (∀ t, SpeakSys.Step n s t → SpeakSys.workLeft t < SpeakSys.workLeft s) ∧
    ((¬ ∃ t, SpeakSys.Step n s t) →
      ∀ i, s.phase i = SpeakSys.Phase.finished ∧ s.plays i = 1) := by
  obtain ⟨hlock, hplays⟩ := SpeakSys.inv_reachable h
  refine ⟨?_, ?_, ?_⟩
  · intro i j hi hj
    exact Option.some.inj (((hlock i).mp hi).symm.trans ((hlock j).mp hj))
  · intro t ht
    exact SpeakSys.step_workLeft ht
  · intro hno i
    by_cases hf : s.phase i = SpeakSys.Phase.finished
    · refine ⟨hf, ?_⟩
      have := hplays i
      rw [hf] at this
      simpa using this
    · exact absurd (SpeakSys.progress ⟨hlock, hplays⟩ i hf) hno

/-- Witness for C1 at the initial state of two concurrent invocations. -/
theorem C1_witness :
    (∀ i j : Fin 2, (SpeakSys.init 2).phase i = SpeakSys.Phase.playing →
        (SpeakSys.init 2).phase j = SpeakSys.Phase.playing → i = j) ∧
    (∀ t, SpeakSys.Step 2 (SpeakSys.init 2) t →
        SpeakSys.workLeft t < SpeakSys.workLeft (SpeakSys.init 2)) ∧
    ((¬ ∃ t, SpeakSys.Step 2 (SpeakSys.init 2) t) →
      ∀ i, (SpeakSys.init 2).phase i = SpeakSys.Phase.finished ∧
        (SpeakSys.init 2).plays i = 1) :=
  C1_playback_serialized 2 (SpeakSys.init 2) Relation.ReflTransGen.refl

/-- C8: the session invariant — every voice id in `agents` or
`used_voices` is a pool voice — is preserved by resolution
(`get_voice_for_agent`), by persistence (`save_session` writes only pool
voices into the file), and by `reset_session` (after which the loaded
state is fresh and records no voices at all). -/
theorem C8_invariant_preserved :
    (∀ (k : Nat) (s : Session) (a : String) (r : String × Session),
        SessionInv VOICE_POOL s →
        get_voice_for_agent VOICE_POOL k s a = some r →
        SessionInv VOICE_POOL r.2) ∧
    (∀ s : Session, SessionInv VOICE_POOL s →
        FileInv VOICE_POOL (save_session s)) ∧
    (∀ fc : FileContent, FileInv VOICE_POOL (reset_session fc)) := by
  refine ⟨?_, ?_, ?_⟩
  · intro k s a r hinv heq
    obtain ⟨hagents, hused⟩ := hinv
    unfold get_voice_for_agent at heq
    cases hl : lookupAgent s a with
    | some v =>
      rw [hl] at heq
      simp only [Option.some.injEq] at heq
      rw [← heq]
      exact ⟨hagents, hused⟩
    | none =>
      rw [hl] at heq
      cases hc : chooseFrom k (availableOf VOICE_POOL s.used_voices) with
      | none => rw [hc] at heq; exact absurd heq (by simp)
      | some voice =>
        rw [hc] at heq
        simp only [Option.some.injEq] at heq
        have hvp : voice ∈ poolIds VOICE_POOL :=
          availableOf_subset (chooseFrom_mem hc)
        rw [← heq]
        refine ⟨?_, ?_⟩
        · intro p hp
          rcases List.mem_append.mp hp with hp1 | hp2
          · exact hagents p hp1
          · rw [List.mem_singleton] at hp2
            rw [hp2]
            exact hvp
        · intro v hv
          rcases List.mem_append.mp hv with hv1 | hv2
          · exact hused v hv1
          · rw [List.mem_singleton] at hv2
            rw [hv2]
            exact hvp
  · intro s hinv v hv
    rw [show load_session (save_session s) = sessionToJson s from rfl,
      jsonVoices_sessionToJson] at hv
    rcases List.mem_append.mp hv with h1 | h2
    · obtain ⟨p, hp, hpv⟩ := List.mem_map.mp h1
      rw [← hpv]
      exact hinv.1 p hp
    · exact hinv.2 v h2
  · intro fc v hv
    have hz : jsonVoices (load_session (reset_session fc)) = [] := rfl
    rw [hz] at hv
    exact absurd hv (List.not_mem_nil v)

/-- Witness for C8 applying the resolution branch to the empty session. -/
theorem C8_witness :
    SessionInv VOICE_POOL
      { agents := [("explore", "en-US-AriaNeural")],
        used_voices := ["en-US-AriaNeural"] } :=
  C8_invariant_preserved.1 0 emptySession "explore"
    ("en-US-AriaNeural",
      { agents := [("explore", "en-US-AriaNeural")],
        used_voices := ["en-US-AriaNeural"] })
    ⟨fun p hp => absurd hp (List.not_mem_nil p),
     fun v hv => absurd hv (List.not_mem_nil v)⟩
    (by decide)

/-- C7 counterexample: with the three-voice pool, the empty session and
the concrete random draws 0,0,0,0, resolving four distinct new agents in
sequence leaves `used_voices` with length 4 — the unconditioned append on
line 93 of `voice.py` grows it on the reuse path too — so its length does
not stay at 3 as the claim states. -/
theorem C7_counterexample :
    (runB 0 0 0 0).map (fun r => r.2.used_voices.length) = some 4 ∧
    (runB 0 0 0 0).map (fun r => r.2.used_voices.length) ≠ some 3 := by
  decide

/-- C7 (amended): from the empty session over a pool of 3 voices, for
every outcome of the random draws, after three distinct new agents
`used_voices` has length 3 with 3 distinct pool entries; a fourth
distinct new agent receives a reused pool voice, and `used_voices` grows
to length 4 (the reused voice is appended again) instead of staying at
length 3. -/
theorem C7_scenarioB_amended (k1 k2 k3 k4 : Nat) :
    ∃ s3 v4 s4,
      runB3 k1 k2 k3 = some s3 ∧
      s3.used_voices.length = 3 ∧
      s3.used_voices.Nodup ∧
      (∀ v ∈ s3.used_voices, v ∈ poolIds pool3) ∧
      runB k1 k2 k3 k4 = some (v4, s4) ∧
      v4 ∈ poolIds pool3 ∧
      v4 ∈ s3.used_voices ∧
      s4.used_voices = s3.used_voices ++ [v4] ∧
      s4.used_voices.length = 4 := by
  obtain ⟨v1, h1, hp1, hu1, hnd1, hl1⟩ :=
    step_nodup pool3 k1 (s := emptySession) (a := "agent-a") rfl
      (by decide) (by decide)
  have hna2 : lookupAgent
      { agents := emptySession.agents ++ [("agent-a", v1)],
        used_voices := emptySession.used_voices ++ [v1] } "agent-b" = none := by
    simp [lookupAgent, emptySession]
  obtain ⟨v2, h2, hp2, hu2, hnd2, hl2⟩ :=
    step_nodup pool3 k2 hna2 hnd1
      (filter_ne_nil_of_len (by decide) (by simp [emptySession, poolIds, pool3]))
  have hna3 : lookupAgent
      { agents := ({ agents := emptySession.agents ++ [("agent-a", v1)],
                     used_voices := emptySession.used_voices ++ [v1] } : Session).agents
                    ++ [("agent-b", v2)],
        used_voices := ({ agents := emptySession.agents ++ [("agent-a", v1)],
                          used_voices := emptySession.used_voices ++ [v1] } : Session).used_voices
                    ++ [v2] } "agent-c" = none := by
    simp [lookupAgent, emptySession]
  obtain ⟨v3, h3, hp3, hu3, hnd3, hl3⟩ :=
    step_nodup pool3 k3 hna3 hnd2
      (filter_ne_nil_of_len (by decide) (by simp [emptySession, poolIds, pool3]))
  have hB3 : runB3 k1 k2 k3 = some
      { agents := ((emptySession.agents ++ [("agent-a", v1)]) ++ [("agent-b", v2)])
                    ++ [("agent-c", v3)],
        used_voices := ((emptySession.used_voices ++ [v1]) ++ [v2]) ++ [v3] } := by
    simp only [runB3, h1, Option.some_bind, h2, h3]
    rfl
  have hna4 : lookupAgent
      { agents := ((emptySession.agents ++ [("agent-a", v1)]) ++ [("agent-b", v2)])
                    ++ [("agent-c", v3)],
        used_voices := ((emptySession.used_voices ++ [v1]) ++ [v2]) ++ [v3] }
      "agent-d" = none := by
    simp [lookupAgent, emptySession]
  have hsub3 : ∀ v ∈ ((emptySession.used_voices ++ [v1]) ++ [v2]) ++ [v3],
      v ∈ poolIds pool3 := by
    intro v hv
    simp [emptySession] at hv
    rcases hv with h | h | h <;> subst h
    · exact hp1
    · exact hp2
    · exact hp3
  obtain ⟨v4, h4, hp4, hu4⟩ :=
    step_exhausted pool3 k4 hna4 (by decide) hnd3 hsub3
      (by simp [emptySession, poolIds, pool3]) (by decide)
  have hB4 : runB k1 k2 k3 k4 = some (v4,
      { agents := (((emptySession.agents ++ [("agent-a", v1)]) ++ [("agent-b", v2)])
                    ++ [("agent-c", v3)]) ++ [("agent-d", v4)],
        used_voices := (((emptySession.used_voices ++ [v1]) ++ [v2]) ++ [v3]) ++ [v4] }) := by
    simp only [runB, hB3, Option.some_bind, h4]
  refine ⟨_, v4, _, hB3, ?_, hnd3, hsub3, hB4, hp4, hu4, rfl, ?_⟩
  · simp [emptySession]
  · simp [emptySession]

end Voice
